import Mathlib

/-!
Shallow embedding of the `Version` class of `src/solution.py` (and, where its
text differs, of `src/Solution.py`): a semantic-version parser built from two
anchored regular expressions (`PATTERN`, the strict grammar, and
`COMPATIBILITY_MODE`, the legacy shorthand grammar), a prerelease normalizer
(`_normalize_prerelease`), and the comparison methods `compare_core`,
`compare_prerelease`, `__lt__`, `__eq__` (with `>`, `<=`, `>=`, `!=` derived
by `functools.total_ordering`).

Strings are Lean `String`s; the parsers work on their `List Char` data.  The
regex character class `\d` is modelled as the ASCII digits `[0-9]`
(`Char.isDigit`), `[a-zA-Z]` as `Char.isAlpha`, and Python's string `<` as
Lean's `String` order (both are lexicographic on code points).  Since the two
anchored regexes are deterministic on their languages (every alternation and
star is committed by the next required character), each is embedded as a
deterministic recognizer over the same language.
-/

namespace Semver

/-- Python `str.split(sep)` for a one-character separator: splitting the empty
string gives `[[]]`, separators at the ends give empty groups. -/
def splitOnChar (sep : Char) : List Char → List (List Char)
  | [] => [[]]
  | c :: cs =>
    if c = sep then [] :: splitOnChar sep cs
    else
      match splitOnChar sep cs with
      | [] => [[c]]
      | g :: gs => (c :: g) :: gs

/-- Inverse of `splitOnChar`: re-join groups with the separator. -/
def joinWith (sep : Char) : List (List Char) → List Char
  | [] => []
  | [g] => g
  | g :: gs => g ++ sep :: joinWith sep gs

/-- The regex class `[0-9A-Za-z-]` (identifier characters). -/
def isAlnumHyphen (c : Char) : Bool := c.isDigit || c.isAlpha || c = '-'

/-- The regex `0|[1-9]\d*`: a digit run with no leading zero unless it is
exactly `0`.  Used for `major`, `minor` and `patch` in both grammars. -/
def numeralOk : List Char → Bool
  | [] => false
  | c :: cs => (c :: cs).all Char.isDigit && (c ≠ '0' || cs.isEmpty)

/-- One strict-grammar prerelease identifier, the regex alternation
`0|[1-9]\d*|[A-Za-z-][0-9A-Za-z-]*`: either a purely numeric run without a
leading zero, or a run of identifier characters starting with a letter or a
hyphen. -/
def preIdentOk : List Char → Bool
  | [] => false
  | c :: cs =>
    if (c :: cs).all Char.isDigit then c ≠ '0' || cs.isEmpty
    else (c.isAlpha || c = '-') && (c :: cs).all isAlnumHyphen

/-- One build identifier, the regex `[0-9A-Za-z-]+`. -/
def buildIdentOk (l : List Char) : Bool := !l.isEmpty && l.all isAlnumHyphen

/-- The capture groups of `PATTERN` (the strict grammar). -/
structure StrictGroups where
  major : String
  minor : String
  patch : String
  prerelease : Option String
  build : Option String
deriving DecidableEq, Repr

/-- The capture groups of `COMPATIBILITY_MODE`. -/
structure CompatGroups where
  major : String
  minor : String
  patch : String
  prerelease : Option String
deriving DecidableEq, Repr

/-- The part of `PATTERN` before the optional `+build`:
`major "." minor "." patch` optionally followed by `- prerelease`.  The core
numerals contain no `-`, so the first `-` (when present) separates the core
from the prerelease. -/
def strictCore (corePre : List Char) (build : Option String) : Option StrictGroups :=
  match splitOnChar '-' corePre with
  | [] => none
  | core :: rest =>
    let pre : Option (List Char) := if rest.isEmpty then none else some (joinWith '-' rest)
    match splitOnChar '.' core with
    | [ma, mi, pa] =>
      if numeralOk ma && numeralOk mi && numeralOk pa &&
          (match pre with
           | none => true
           | some p => (splitOnChar '.' p).all preIdentOk) then
        some ⟨String.mk ma, String.mk mi, String.mk pa, pre.map String.mk, build⟩
      else none
    | _ => none

/-- `re.match(PATTERN, s)`: the anchored strict grammar.  No group of the
pattern may contain `+`, so the string matches exactly when it has no `+` and
its whole text matches `core[-pre]`, or one `+` splitting it into a matching
`core[-pre]` and a valid build. -/
def strictMatch (s : String) : Option StrictGroups :=
  match splitOnChar '+' s.data with
  | [corePre] => strictCore corePre none
  | [corePre, build] =>
    if (splitOnChar '.' build).all buildIdentOk then
      strictCore corePre (some (String.mk build))
    else none
  | _ => none

/-- Does the list start with the two characters `rc`? (regex prefix `rc`). -/
def startsRC : List Char → Bool
  | a :: b :: _ => a == 'r' && b == 'c'
  | _ => false

/-- The compatibility tag, the regex `(?:rc|[a-zA-Z])\d*`. -/
def tagOk (t : List Char) : Bool :=
  (startsRC t && (t.drop 2).all Char.isDigit) ||
    (match t with
     | c :: cs => c.isAlpha && cs.all Char.isDigit
     | [] => false)

/-- `re.match(COMPATIBILITY_MODE, s)`: the anchored compatibility grammar.
The string must be `major "." minor "." patch[tag]`; since the tag starts with
a letter, the patch digits are the maximal digit run of the third
dot-component. -/
def compatMatch (s : String) : Option CompatGroups :=
  match splitOnChar '.' s.data with
  | [ma, mi, last] =>
    let pa := last.takeWhile Char.isDigit
    let tag := last.dropWhile Char.isDigit
    if numeralOk ma && numeralOk mi && numeralOk pa && (tag.isEmpty || tagOk tag) then
      some ⟨String.mk ma, String.mk mi, String.mk pa,
            if tag.isEmpty then none else some (String.mk tag)⟩
    else none
  | _ => none

/-- Decimal digits of a natural number, the rendering Python's `f"{int(n)}"`
produces (no leading zeros; `0` renders as `"0"`). -/
def natToChars (n : Nat) : List Char := Nat.toDigits 10 n

/-- Python `int(s)` on an all-digit string. -/
def strToNatL (l : List Char) : Nat :=
  l.foldl (fun n c => n * 10 + (c.toNat - 48)) 0

/-- Python `int(s)` on an all-digit `String`. -/
def strToNat (s : String) : Nat := strToNatL s.data

/-- The inner regex `^(rc|[a-zA-Z])(\d*)$` of `_normalize_prerelease`,
returning the two captured groups.  The alternation tries `rc` first; when the
`rc` branch cannot complete (the rest is not all digits), a single letter is
tried. -/
def normMatchL (p : List Char) : Option (List Char × List Char) :=
  if startsRC p && (p.drop 2).all Char.isDigit then some (p.take 2, p.drop 2)
  else
    match p with
    | c :: cs => if c.isAlpha && cs.all Char.isDigit then some ([c], cs) else none
    | [] => none

/-- `Version._normalize_prerelease`: rewrite a shorthand tag `prefix``digits`
into `prefix-int(digits)`; with no digits return the prefix; when the inner
regex does not match, fall back to the input unchanged. -/
def _normalize_prerelease (p : String) : String :=
  match normMatchL p.data with
  | some (pfx, num) =>
    if num.isEmpty then String.mk pfx
    else String.mk (pfx ++ '-' :: natToChars (strToNatL num))
  | none => p

/-- The `Version` value: the fields `__init__`/`_set_values` store. -/
structure Version where
  major : Nat
  minor : Nat
  patch : Nat
  prerelease : Option String
  build : Option String
  version : String
deriving DecidableEq, Repr

/-- Python truthiness of an optional string: `None` and `""` are falsy. -/
def truthy : Option String → Bool
  | none => false
  | some s => !s.data.isEmpty

/-- `Version._set_values`: fill the fields from whichever regex matched, the
strict match taking priority; normalize the prerelease only when the
compatibility regex was the one used and the prerelease is truthy. -/
def _set_values (s : String) : Option StrictGroups → Option CompatGroups → Option Version
  | some m, _ =>
    some ⟨strToNat m.major, strToNat m.minor, strToNat m.patch, m.prerelease, m.build, s⟩
  | none, some cm =>
    let pre := if truthy cm.prerelease then cm.prerelease.map _normalize_prerelease
               else cm.prerelease
    some ⟨strToNat cm.major, strToNat cm.minor, strToNat cm.patch, pre, none, s⟩
  | none, none => none

/-- `Version.__init__`: try both regexes; `none` models the raised
`ValueError` when neither matches. -/
def Version.parse (s : String) : Option Version :=
  _set_values s (strictMatch s) (compatMatch s)

/-- The loop of `compare_core`: walk the zipped `(major, minor, patch)`
triples, returning at the first unequal pair. -/
def cmpZip : List (Nat × Nat) → Int
  | [] => 0
  | (x, y) :: rest => if x < y then -1 else if y < x then 1 else cmpZip rest

/-- `Version.compare_core` of `src/solution.py`. -/
def compare_core (a b : Version) : Int :=
  cmpZip (List.zip [a.major, a.minor, a.patch] [b.major, b.minor, b.patch])

/-- Python `str.isdigit()` (ASCII): non-empty and all digits. -/
def pyIsDigit (s : String) : Bool := !s.data.isEmpty && s.data.all Char.isDigit

/-- Python `s.split(".")` on a `String`, as a list of `String`s. -/
def pySplitDot (s : String) : List String := (splitOnChar '.' s.data).map String.mk

/-- `if m < n: return -1; if m > n: return 1` over integers, falling through
to `0`: the numeric comparison inside the `compare_prerelease` loop. -/
def natCmp (m n : Nat) : Int :=
  if m < n then -1 else if n < m then 1 else 0

/-- `if s < t: return -1; if s > t: return 1` over strings, falling through
to `0`: the lexical comparison inside the `compare_prerelease` loop.  Python
compares strings lexicographically by code point, which is the lexicographic
order on the character list `data` (`String.lt_iff_toList_lt`). -/
def strCmp (x y : String) : Int :=
  if x.data < y.data then -1 else if y.data < x.data then 1 else 0

/-- One iteration of the `compare_prerelease` loop of `src/solution.py` (the
`elif` chain on one identifier pair): `0` means the loop continues. -/
def pairCmp (id1 id2 : String) : Int :=
  let is_num1 := pyIsDigit id1
  let is_num2 := pyIsDigit id2
  if is_num1 && is_num2 then natCmp (strToNat id1) (strToNat id2)
  else if !is_num1 && !is_num2 then strCmp id1 id2
  else if is_num1 && !is_num2 then -1
  else 1

/-- The whole `compare_prerelease` loop of `src/solution.py`: first non-zero
pair verdict, else `0`. -/
def cmpPairs : List (String × String) → Int
  | [] => 0
  | (id1, id2) :: rest =>
    let c := pairCmp id1 id2
    if c = 0 then cmpPairs rest else c

/-- The tail of `compare_prerelease` shared by both drafts: the identifier
loop, then the length tiebreak. -/
def plistCmp (xs ys : List String) : Int :=
  let c := cmpPairs (xs.zip ys)
  if c ≠ 0 then c
  else if xs.length < ys.length then -1
  else if ys.length < xs.length then 1
  else 0

/-- `Version.compare_prerelease` of `src/solution.py`: truthiness tests on
presence, then the identifier loop over the dot-split lists, then the length
tiebreak. -/
def compare_prerelease (a b : Version) : Int :=
  if truthy a.prerelease && !truthy b.prerelease then -1
  else if !truthy a.prerelease && truthy b.prerelease then 1
  else if !truthy a.prerelease && !truthy b.prerelease then 0
  else
    plistCmp (pySplitDot (a.prerelease.getD "")) (pySplitDot (b.prerelease.getD ""))

/-- `Version.__lt__` of `src/solution.py`. -/
def vlt (a b : Version) : Bool :=
  let core_cmp := compare_core a b
  if core_cmp = -1 then true
  else if core_cmp = 1 then false
  else compare_prerelease a b == -1

/-- `Version.__eq__` of `src/solution.py` (identical text in both drafts). -/
def veq (a b : Version) : Bool :=
  compare_core a b == 0 && compare_prerelease a b == 0

/-- `__gt__` as `functools.total_ordering` derives it from `__lt__` and
`__eq__`: `not (self < other) and self != other`. -/
def vgt (a b : Version) : Bool := !vlt a b && !veq a b

/-- `__le__` as `total_ordering` derives it: `self < other or self == other`. -/
def vle (a b : Version) : Bool := vlt a b || veq a b

/-- `__ge__` as `total_ordering` derives it: `not (self < other)`. -/
def vge (a b : Version) : Bool := !vlt a b

/-- `__ne__`, Python's default negation of `__eq__`. -/
def vne (a b : Version) : Bool := !veq a b

end Semver

namespace Solution2
/-!
Embedding of `src/Solution.py` where its text differs from `src/solution.py`:
the two regexes, `_set_values`, `_normalize_prerelease`, `__init__` and
`__eq__` are character-identical between the drafts (so their embeddings are
the shared `Semver` definitions), while `compare_core` binds the zip before
looping, the `compare_prerelease` loop uses four independent `if`s instead of
an `elif` chain, and `__lt__` branches explicitly on the prerelease verdict.
-/

open Semver

/-- `Version.compare_core` of `src/Solution.py` (the zip is bound to
`core_parts` first; the loop is the same). -/
def compare_core2 (a b : Version) : Int :=
  let core_parts := List.zip [a.major, a.minor, a.patch] [b.major, b.minor, b.patch]
  cmpZip core_parts

/-- The `compare_prerelease` loop of `src/Solution.py`: four independent
`if` statements per pair, falling through to the next pair when none of their
`return`s fires. -/
def cmpPairs2 : List (String × String) → Int
  | [] => 0
  | (id1, id2) :: rest =>
    let n1 := pyIsDigit id1
    let n2 := pyIsDigit id2
    if n1 && n2 && decide (strToNat id1 < strToNat id2) then -1
    else if n1 && n2 && decide (strToNat id2 < strToNat id1) then 1
    else if !n1 && !n2 && decide (id1.data < id2.data) then -1
    else if !n1 && !n2 && decide (id2.data < id1.data) then 1
    else if n1 && !n2 then -1
    else if n2 && !n1 then 1
    else cmpPairs2 rest

/-- `Version.compare_prerelease` of `src/Solution.py`. -/
def compare_prerelease2 (a b : Version) : Int :=
  if truthy a.prerelease && !truthy b.prerelease then -1
  else if !truthy a.prerelease && truthy b.prerelease then 1
  else if !truthy a.prerelease && !truthy b.prerelease then 0
  else
    let id1_parts := pySplitDot (a.prerelease.getD "")
    let id2_parts := pySplitDot (b.prerelease.getD "")
    let c := cmpPairs2 (id1_parts.zip id2_parts)
    if c ≠ 0 then c
    else if id1_parts.length < id2_parts.length then -1
    else if id2_parts.length < id1_parts.length then 1
    else 0

/-- `Version.__lt__` of `src/Solution.py`: explicit branches on the
prerelease verdict instead of `return pre_cmp == -1`. -/
def vlt2 (a b : Version) : Bool :=
  let core_cmp := compare_core2 a b
  if core_cmp = -1 then true
  else if core_cmp = 1 then false
  else
    let pre_cmp := compare_prerelease2 a b
    if pre_cmp = -1 then true
    else if pre_cmp = 1 then false
    else false

/-- `Version.__eq__` of `src/Solution.py` (same text as `src/solution.py`,
composed from this draft's comparators). -/
def veq2 (a b : Version) : Bool :=
  compare_core2 a b == 0 && compare_prerelease2 a b == 0

/-- `Version.__init__` of `src/Solution.py` (same text as `src/solution.py`,
over the module-level regexes, which are character-identical). -/
def parse2 (s : String) : Option Version :=
  _set_values s (strictMatch s) (compatMatch s)

end Solution2

namespace Semver

/-- The three-way verdict the ordering operators follow: core comparison
first, prerelease comparison when the cores tie.  (Proof-layer summary of
`__lt__`/`__eq__`; not itself a source function.) -/
def vcmp (a b : Version) : Int :=
  if compare_core a b = 0 then compare_prerelease a b else compare_core a b

/-- Comparison of one pair of prerelease identifiers as the spec words it:
both purely numeric compare as integers; both non-numeric compare as
case-sensitive (code-point) strings; a numeric identifier is lower than a
non-numeric one. -/
def specIdentCmp (x y : String) : Int :=
  if pyIsDigit x then
    if pyIsDigit y then
      if strToNat x < strToNat y then -1
      else if strToNat y < strToNat x then 1
      else 0
    else -1
  else if pyIsDigit y then 1
  else if x.data < y.data then -1
  else if y.data < x.data then 1
  else 0

/-- Prerelease sequence comparison as the spec words it: element-wise, left
to right, the first differing position decides; a proper prefix (fewer
identifiers, all compared positions equal) is lower; identical sequences are
equal. -/
def specPrereleaseCmp : List String → List String → Int
  | [], [] => 0
  | [], _ :: _ => -1
  | _ :: _, [] => 1
  | x :: xs, y :: ys =>
    if specIdentCmp x y = 0 then specPrereleaseCmp xs ys else specIdentCmp x y

end Semver

namespace Semver

/-! ### Lemmas about the identifier and list comparators -/

theorem natCmp_swap (m n : Nat) : natCmp n m = -natCmp m n := by
  unfold natCmp; split_ifs <;> omega

theorem natCmp_trans {a b c : Nat} (h1 : natCmp a b = -1) (h2 : natCmp b c = -1) :
    natCmp a c = -1 := by
  unfold natCmp at h1 h2 ⊢; split_ifs at h1 h2 ⊢ <;> omega

theorem natCmp_eq_zero {m n : Nat} : natCmp m n = 0 ↔ m = n := by
  unfold natCmp
  split_ifs with h1 h2
  · exact ⟨fun h => absurd h (by decide), fun h => by omega⟩
  · exact ⟨fun h => absurd h (by decide), fun h => by omega⟩
  · exact ⟨fun h => by omega, fun h => rfl⟩

theorem strCmp_swap (x y : String) : strCmp y x = -strCmp x y := by
  unfold strCmp
  rcases lt_trichotomy x.data y.data with h | h | h
  · rw [if_neg (lt_asymm h), if_pos h, if_pos h]; try decide
  · rw [h, if_neg (lt_irrefl y.data), if_neg (lt_irrefl y.data)]; try decide
  · rw [if_pos h, if_neg (lt_asymm h), if_pos h]; try decide

theorem strCmp_eq_neg_one {x y : String} : strCmp x y = -1 ↔ x.data < y.data := by
  unfold strCmp
  rcases lt_trichotomy x.data y.data with h | h | h
  · rw [if_pos h]; simp [h]
  · rw [h, if_neg (lt_irrefl y.data), if_neg (lt_irrefl y.data)]; simp [h, lt_irrefl]
  · rw [if_neg (lt_asymm h), if_pos h]; simp [lt_asymm h]

theorem strCmp_trans {x y z : String} (h1 : strCmp x y = -1) (h2 : strCmp y z = -1) :
    strCmp x z = -1 :=
  strCmp_eq_neg_one.mpr (lt_trans (strCmp_eq_neg_one.mp h1) (strCmp_eq_neg_one.mp h2))

theorem strCmp_eq_zero {x y : String} : strCmp x y = 0 ↔ x = y := by
  unfold strCmp
  rcases lt_trichotomy x.data y.data with h | h | h
  · rw [if_pos h]
    exact iff_of_false (by decide) fun he => h.ne (congrArg String.data he)
  · rw [h, if_neg (lt_irrefl y.data), if_neg (lt_irrefl y.data)]
    have hxy : x = y := String.toList_inj.mp h
    simp [hxy]
  · rw [if_neg (lt_asymm h), if_pos h]
    exact iff_of_false (by decide) fun he => h.ne' (congrArg String.data he)

theorem pairCmp_tt {x y : String} (hx : pyIsDigit x = true) (hy : pyIsDigit y = true) :
    pairCmp x y = natCmp (strToNat x) (strToNat y) := by
  simp only [pairCmp, hx, hy]; norm_num

theorem pairCmp_ff {x y : String} (hx : pyIsDigit x = false) (hy : pyIsDigit y = false) :
    pairCmp x y = strCmp x y := by
  simp only [pairCmp, hx, hy]; norm_num

theorem pairCmp_tf {x y : String} (hx : pyIsDigit x = true) (hy : pyIsDigit y = false) :
    pairCmp x y = -1 := by
  simp only [pairCmp, hx, hy]; norm_num

theorem pairCmp_ft {x y : String} (hx : pyIsDigit x = false) (hy : pyIsDigit y = true) :
    pairCmp x y = 1 := by
  simp only [pairCmp, hx, hy]; norm_num

theorem pairCmp_swap (x y : String) : pairCmp y x = -pairCmp x y := by
  cases hx : pyIsDigit x <;> cases hy : pyIsDigit y
  · rw [pairCmp_ff hy hx, pairCmp_ff hx hy, strCmp_swap]
  · rw [pairCmp_tf hy hx, pairCmp_ft hx hy]
  · rw [pairCmp_ft hy hx, pairCmp_tf hx hy]; decide
  · rw [pairCmp_tt hy hx, pairCmp_tt hx hy, natCmp_swap]

theorem pairCmp_trans {x y z : String} (h1 : pairCmp x y = -1) (h2 : pairCmp y z = -1) :
    pairCmp x z = -1 := by
  cases hx : pyIsDigit x <;> cases hy : pyIsDigit y <;> cases hz : pyIsDigit z
  · rw [pairCmp_ff hx hy] at h1; rw [pairCmp_ff hy hz] at h2
    rw [pairCmp_ff hx hz]; exact strCmp_trans h1 h2
  · rw [pairCmp_ft hy hz] at h2; exact absurd h2 (by decide)
  · rw [pairCmp_ft hx hy] at h1; exact absurd h1 (by decide)
  · rw [pairCmp_ft hx hy] at h1; exact absurd h1 (by decide)
  · rw [pairCmp_tf hx hz]
  · rw [pairCmp_ft hy hz] at h2; exact absurd h2 (by decide)
  · rw [pairCmp_tf hx hz]
  · rw [pairCmp_tt hx hy] at h1; rw [pairCmp_tt hy hz] at h2
    rw [pairCmp_tt hx hz]; exact natCmp_trans h1 h2

theorem pairCmp_coh_left {x y : String} (h : pairCmp x y = 0) (z : String) :
    pairCmp x z = pairCmp y z := by
  cases hx : pyIsDigit x <;> cases hy : pyIsDigit y
  · rw [pairCmp_ff hx hy] at h
    rw [strCmp_eq_zero.mp h]
  · rw [pairCmp_ft hx hy] at h; exact absurd h (by decide)
  · rw [pairCmp_tf hx hy] at h; exact absurd h (by decide)
  · rw [pairCmp_tt hx hy] at h
    have hxy : strToNat x = strToNat y := natCmp_eq_zero.mp h
    cases hz : pyIsDigit z
    · rw [pairCmp_tf hx hz, pairCmp_tf hy hz]
    · rw [pairCmp_tt hx hz, pairCmp_tt hy hz, hxy]

theorem pairCmp_coh_right {y z : String} (h : pairCmp y z = 0) (x : String) :
    pairCmp x y = pairCmp x z := by
  have h' : pairCmp z y = 0 := by rw [pairCmp_swap y z, h, neg_zero]
  calc pairCmp x y = -pairCmp y x := pairCmp_swap y x
    _ = -pairCmp z x := by rw [pairCmp_coh_left h' x]
    _ = pairCmp x z := (pairCmp_swap z x).symm ▸ rfl

theorem cmpPairs_cons (x y : String) (l : List (String × String)) :
    cmpPairs ((x, y) :: l) = if pairCmp x y = 0 then cmpPairs l else pairCmp x y := rfl

theorem plistCmp_nil_nil : plistCmp [] [] = 0 := rfl

theorem plistCmp_nil_cons (y : String) (ys : List String) : plistCmp [] (y :: ys) = -1 := by
  simp [plistCmp, cmpPairs]

theorem plistCmp_cons_nil (x : String) (xs : List String) : plistCmp (x :: xs) [] = 1 := by
  simp [plistCmp, cmpPairs]

theorem plistCmp_cons_cons (x y : String) (xs ys : List String) :
    plistCmp (x :: xs) (y :: ys) =
      if pairCmp x y = 0 then plistCmp xs ys else pairCmp x y := by
  by_cases h : pairCmp x y = 0 <;>
    simp [plistCmp, cmpPairs_cons, h, Nat.add_lt_add_iff_right]

theorem plistCmp_swap (xs : List String) : ∀ ys, plistCmp ys xs = -plistCmp xs ys := by
  induction xs with
  | nil =>
    intro ys
    cases ys with
    | nil => rfl
    | cons y ys => rw [plistCmp_cons_nil, plistCmp_nil_cons]; try decide
  | cons x xs ih =>
    intro ys
    cases ys with
    | nil => rw [plistCmp_nil_cons, plistCmp_cons_nil]; try decide
    | cons y ys =>
      rw [plistCmp_cons_cons, plistCmp_cons_cons, pairCmp_swap, ih ys]
      simp only [neg_eq_zero, apply_ite (fun t : Int => -t)]

theorem plistCmp_trans : ∀ (xs ys zs : List String),
    plistCmp xs ys = -1 → plistCmp ys zs = -1 → plistCmp xs zs = -1
  | [], [], _, h1, _ => by
    rw [plistCmp_nil_nil] at h1; exact absurd h1 (by decide)
  | [], _ :: _, [], _, h2 => by
    rw [plistCmp_cons_nil] at h2; exact absurd h2 (by decide)
  | [], _ :: _, z :: zs, _, _ => plistCmp_nil_cons z zs
  | _ :: _, [], _, h1, _ => by
    rw [plistCmp_cons_nil] at h1; exact absurd h1 (by decide)
  | _ :: _, _ :: _, [], _, h2 => by
    rw [plistCmp_cons_nil] at h2; exact absurd h2 (by decide)
  | x :: xs, y :: ys, z :: zs, h1, h2 => by
    rw [plistCmp_cons_cons] at h1 h2 ⊢
    by_cases hxy : pairCmp x y = 0 <;> by_cases hyz : pairCmp y z = 0
    · rw [if_pos hxy] at h1
      rw [if_pos hyz] at h2
      have hxz : pairCmp x z = 0 := by rw [pairCmp_coh_left hxy z, hyz]
      rw [if_pos hxz]
      exact plistCmp_trans xs ys zs h1 h2
    · rw [if_pos hxy] at h1
      rw [if_neg hyz] at h2
      have hxz : pairCmp x z = pairCmp y z := pairCmp_coh_left hxy z
      rw [if_neg (by rw [hxz]; exact hyz), hxz]
      exact h2
    · rw [if_neg hxy] at h1
      rw [if_pos hyz] at h2
      have hxz : pairCmp x z = pairCmp x y := (pairCmp_coh_right hyz x).symm
      rw [if_neg (by rw [hxz, h1]; decide), hxz]
      exact h1
    · rw [if_neg hxy] at h1
      rw [if_neg hyz] at h2
      have hxz := pairCmp_trans h1 h2
      rw [if_neg (by rw [hxz]; decide)]
      exact hxz

end Semver

namespace Semver

/-! ### Lemmas about `compare_core`, `compare_prerelease` and the ordering -/

theorem compare_core_eq (a b : Version) :
    compare_core a b =
      if a.major < b.major then -1
      else if b.major < a.major then 1
      else if a.minor < b.minor then -1
      else if b.minor < a.minor then 1
      else if a.patch < b.patch then -1
      else if b.patch < a.patch then 1
      else 0 := by
  simp [compare_core, cmpZip]

theorem compare_core_swap (a b : Version) : compare_core b a = -compare_core a b := by
  rw [compare_core_eq, compare_core_eq]
  split_ifs <;> first | rfl | omega

theorem compare_core_range (a b : Version) :
    compare_core a b = -1 ∨ compare_core a b = 0 ∨ compare_core a b = 1 := by
  rw [compare_core_eq]
  split_ifs <;> simp

theorem compare_core_eq_zero {a b : Version} (h : compare_core a b = 0) :
    a.major = b.major ∧ a.minor = b.minor ∧ a.patch = b.patch := by
  rw [compare_core_eq] at h
  split_ifs at h <;> first | exact absurd h (by decide) | omega

theorem compare_core_congr {a b a' b' : Version}
    (ha1 : a.major = a'.major) (ha2 : a.minor = a'.minor) (ha3 : a.patch = a'.patch)
    (hb1 : b.major = b'.major) (hb2 : b.minor = b'.minor) (hb3 : b.patch = b'.patch) :
    compare_core a b = compare_core a' b' := by
  rw [compare_core_eq, compare_core_eq, ha1, ha2, ha3, hb1, hb2, hb3]

theorem compare_core_neg_iff (a b : Version) :
    compare_core a b = -1 ↔
      (a.major < b.major ∨ a.major = b.major ∧
        (a.minor < b.minor ∨ a.minor = b.minor ∧ a.patch < b.patch)) := by
  rw [compare_core_eq]
  split_ifs <;>
    first
      | exact iff_of_true rfl (by omega)
      | exact iff_of_false (by decide) (by omega)

theorem compare_core_trans {a b c : Version} (h1 : compare_core a b = -1)
    (h2 : compare_core b c = -1) : compare_core a c = -1 := by
  rw [compare_core_neg_iff] at h1 h2 ⊢
  omega

theorem compare_prerelease_both {a b : Version} (ha : truthy a.prerelease = true)
    (hb : truthy b.prerelease = true) :
    compare_prerelease a b =
      plistCmp (pySplitDot (a.prerelease.getD "")) (pySplitDot (b.prerelease.getD "")) := by
  unfold compare_prerelease
  rw [ha, hb]
  norm_num

theorem compare_prerelease_swap (a b : Version) :
    compare_prerelease b a = -compare_prerelease a b := by
  cases ha : truthy a.prerelease <;> cases hb : truthy b.prerelease <;>
    simp [compare_prerelease, ha, hb]
  exact plistCmp_swap _ _

theorem compare_prerelease_congr {a b a' b' : Version}
    (ha : a.prerelease = a'.prerelease) (hb : b.prerelease = b'.prerelease) :
    compare_prerelease a b = compare_prerelease a' b' := by
  unfold compare_prerelease
  rw [ha, hb]

theorem pairCmp_range (x y : String) : pairCmp x y = -1 ∨ pairCmp x y = 0 ∨ pairCmp x y = 1 := by
  cases hx : pyIsDigit x <;> cases hy : pyIsDigit y
  · rw [pairCmp_ff hx hy]; unfold strCmp; split_ifs <;> simp
  · rw [pairCmp_ft hx hy]; simp
  · rw [pairCmp_tf hx hy]; simp
  · rw [pairCmp_tt hx hy]; unfold natCmp; split_ifs <;> simp

theorem cmpPairs_range : ∀ l, cmpPairs l = -1 ∨ cmpPairs l = 0 ∨ cmpPairs l = 1
  | [] => Or.inr (Or.inl rfl)
  | (x, y) :: rest => by
    rw [cmpPairs_cons]
    by_cases h : pairCmp x y = 0
    · rw [if_pos h]; exact cmpPairs_range rest
    · rw [if_neg h]; exact pairCmp_range x y

theorem plistCmp_range (xs ys : List String) :
    plistCmp xs ys = -1 ∨ plistCmp xs ys = 0 ∨ plistCmp xs ys = 1 := by
  unfold plistCmp
  by_cases h : cmpPairs (xs.zip ys) = 0
  · rw [if_neg (not_not_intro h)]
    split_ifs <;> simp
  · rw [if_pos h]
    exact cmpPairs_range _

theorem compare_prerelease_range (a b : Version) :
    compare_prerelease a b = -1 ∨ compare_prerelease a b = 0 ∨ compare_prerelease a b = 1 := by
  unfold compare_prerelease
  cases ha : truthy a.prerelease <;> cases hb : truthy b.prerelease <;> simp
  exact plistCmp_range _ _

theorem compare_prerelease_trans {a b c : Version}
    (h1 : compare_prerelease a b = -1) (h2 : compare_prerelease b c = -1) :
    compare_prerelease a c = -1 := by
  unfold compare_prerelease at h1 h2 ⊢
  cases ha : truthy a.prerelease <;> cases hb : truthy b.prerelease <;>
      cases hc : truthy c.prerelease <;>
    simp [ha, hb, hc] at h1 h2 ⊢
  exact plistCmp_trans _ _ _ h1 h2

theorem vcmp_swap (a b : Version) : vcmp b a = -vcmp a b := by
  unfold vcmp
  by_cases h : compare_core a b = 0
  · have h' : compare_core b a = 0 := by rw [compare_core_swap, h, neg_zero]
    rw [if_pos h, if_pos h', compare_prerelease_swap]
  · have h' : ¬compare_core b a = 0 := by
      rw [compare_core_swap, neg_eq_zero]; exact h
    rw [if_neg h, if_neg h', compare_core_swap]

theorem vcmp_range (a b : Version) : vcmp a b = -1 ∨ vcmp a b = 0 ∨ vcmp a b = 1 := by
  unfold vcmp
  by_cases h : compare_core a b = 0
  · rw [if_pos h]; exact compare_prerelease_range a b
  · rw [if_neg h]; exact compare_core_range a b

theorem vcmp_trans {a b c : Version} (h1 : vcmp a b = -1) (h2 : vcmp b c = -1) :
    vcmp a c = -1 := by
  unfold vcmp at h1 h2 ⊢
  by_cases c1 : compare_core a b = 0 <;> by_cases c2 : compare_core b c = 0
  · rw [if_pos c1] at h1
    rw [if_pos c2] at h2
    obtain ⟨e1, e2, e3⟩ := compare_core_eq_zero c1
    obtain ⟨f1, f2, f3⟩ := compare_core_eq_zero c2
    have hac : compare_core a c = 0 := by
      rw [compare_core_congr e1 e2 e3 rfl rfl rfl, c2]
    rw [if_pos hac]
    exact compare_prerelease_trans h1 h2
  · rw [if_neg c2] at h2
    obtain ⟨e1, e2, e3⟩ := compare_core_eq_zero c1
    have hac : compare_core a c = compare_core b c :=
      compare_core_congr e1 e2 e3 rfl rfl rfl
    rw [if_neg (by rw [hac]; exact c2), hac]
    exact h2
  · rw [if_neg c1] at h1
    obtain ⟨f1, f2, f3⟩ := compare_core_eq_zero c2
    have hac : compare_core a c = compare_core a b :=
      compare_core_congr rfl rfl rfl f1.symm f2.symm f3.symm
    rw [if_neg (by rw [hac, h1]; decide), hac]
    exact h1
  · rw [if_neg c1] at h1
    rw [if_neg c2] at h2
    have hac := compare_core_trans h1 h2
    rw [if_neg (by rw [hac]; decide)]
    exact hac

theorem vlt_eq (a b : Version) : vlt a b = (vcmp a b == -1) := by
  unfold vlt vcmp
  rcases compare_core_range a b with h | h | h <;> rw [h] <;> simp

theorem veq_eq (a b : Version) : veq a b = (vcmp a b == 0) := by
  unfold veq vcmp
  by_cases h : compare_core a b = 0
  · rw [h, if_pos rfl]; simp
  · rw [if_neg h]
    simp [h]

/-- C1: for every pair of `Version` values exactly one of `a < b` (`vlt`),
`a == b` (`veq`), `a > b` (`vgt`, as `functools.total_ordering` derives `>`
from `__lt__` and `__eq__`) holds; `a > b` coincides with `b < a`; and the
strict order is transitive and antisymmetric. -/
theorem version_order_total (a b c : Version) :
    ((vlt a b = true ∧ veq a b = false ∧ vgt a b = false) ∨
     (vlt a b = false ∧ veq a b = true ∧ vgt a b = false) ∨
     (vlt a b = false ∧ veq a b = false ∧ vgt a b = true)) ∧
    vgt a b = vlt b a ∧
    (vlt a b = true → vlt b c = true → vlt a c = true) ∧
    (vlt a b = true → vlt b a = false) := by
  have hswap : vcmp b a = -vcmp a b := vcmp_swap a b
  refine ⟨?_, ?_, ?_, ?_⟩
  · rcases vcmp_range a b with h | h | h
    · exact Or.inl ⟨by simp [vlt_eq, h], by simp [veq_eq, h],
        by simp [vgt, vlt_eq, veq_eq, h]⟩
    · exact Or.inr (Or.inl ⟨by simp [vlt_eq, h], by simp [veq_eq, h],
        by simp [vgt, vlt_eq, veq_eq, h]⟩)
    · exact Or.inr (Or.inr ⟨by simp [vlt_eq, h], by simp [veq_eq, h],
        by simp [vgt, vlt_eq, veq_eq, h]⟩)
  · rcases vcmp_range a b with h | h | h <;>
      simp [vgt, vlt_eq, veq_eq, h, hswap]
  · intro h1 h2
    rw [vlt_eq, beq_iff_eq] at h1 h2 ⊢
    exact vcmp_trans h1 h2
  · intro h1
    rw [vlt_eq, beq_iff_eq] at h1
    rw [vlt_eq, hswap, h1]
    decide

/-- Witness for C1: the transitivity and antisymmetry hypotheses discharged at
`1.0.0 < 2.0.0 < 3.0.0`. -/
theorem version_order_total_witness :
    vlt ⟨1, 0, 0, none, none, "1.0.0"⟩ ⟨3, 0, 0, none, none, "3.0.0"⟩ = true ∧
    vlt ⟨2, 0, 0, none, none, "2.0.0"⟩ ⟨1, 0, 0, none, none, "1.0.0"⟩ = false :=
  ⟨(version_order_total ⟨1, 0, 0, none, none, "1.0.0"⟩ ⟨2, 0, 0, none, none, "2.0.0"⟩
      ⟨3, 0, 0, none, none, "3.0.0"⟩).2.2.1 (by decide) (by decide),
   (version_order_total ⟨1, 0, 0, none, none, "1.0.0"⟩ ⟨2, 0, 0, none, none, "2.0.0"⟩
      ⟨2, 0, 0, none, none, "2.0.0"⟩).2.2.2 (by decide)⟩

end Semver

namespace Semver

/-- C6: none of the six comparison operators reads the `build` field — two
pairs of versions agreeing on `major`, `minor`, `patch` and `prerelease` get
identical verdicts whatever their builds; in particular the values parsed
from `"1.0.0+build1"` and `"1.0.0+build2"` are equal. -/
theorem build_not_in_comparison (a b a' b' u w : Version)
    (ha1 : a.major = a'.major) (ha2 : a.minor = a'.minor) (ha3 : a.patch = a'.patch)
    (hap : a.prerelease = a'.prerelease)
    (hb1 : b.major = b'.major) (hb2 : b.minor = b'.minor) (hb3 : b.patch = b'.patch)
    (hbp : b.prerelease = b'.prerelease)
    (hu : Version.parse "1.0.0+build1" = some u)
    (hw : Version.parse "1.0.0+build2" = some w) :
    (vlt a b = vlt a' b' ∧ vle a b = vle a' b' ∧ vgt a b = vgt a' b' ∧
     vge a b = vge a' b' ∧ veq a b = veq a' b' ∧ vne a b = vne a' b') ∧
    veq u w = true := by
  have hc : compare_core a b = compare_core a' b' :=
    compare_core_congr ha1 ha2 ha3 hb1 hb2 hb3
  have hp : compare_prerelease a b = compare_prerelease a' b' :=
    compare_prerelease_congr hap hbp
  have hlt : vlt a b = vlt a' b' := by unfold vlt; rw [hc, hp]
  have heq : veq a b = veq a' b' := by unfold veq; rw [hc, hp]
  refine ⟨⟨hlt, ?_, ?_, ?_, heq, ?_⟩, ?_⟩
  · unfold vle; rw [hlt, heq]
  · unfold vgt; rw [hlt, heq]
  · unfold vge; rw [hlt]
  · unfold vne; rw [heq]
  · rw [show Version.parse "1.0.0+build1" =
        some ⟨1, 0, 0, none, some "build1", "1.0.0+build1"⟩ from by decide] at hu
    rw [show Version.parse "1.0.0+build2" =
        some ⟨1, 0, 0, none, some "build2", "1.0.0+build2"⟩ from by decide] at hw
    obtain rfl := (Option.some.inj hu).symm
    obtain rfl := (Option.some.inj hw).symm
    decide

/-- Witness for C6: both the congruence and the concrete `build1`/`build2`
hypotheses discharged on explicit records. -/
theorem build_not_in_comparison_witness :
    veq ⟨1, 0, 0, none, some "build1", "1.0.0+build1"⟩
      ⟨1, 0, 0, none, some "build2", "1.0.0+build2"⟩ = true :=
  (build_not_in_comparison
    ⟨1, 2, 3, some "rc.1", some "x", "a"⟩ ⟨1, 2, 3, none, none, "b"⟩
    ⟨1, 2, 3, some "rc.1", none, "c"⟩ ⟨1, 2, 3, none, some "y", "d"⟩
    ⟨1, 0, 0, none, some "build1", "1.0.0+build1"⟩
    ⟨1, 0, 0, none, some "build2", "1.0.0+build2"⟩
    rfl rfl rfl rfl rfl rfl rfl rfl (by decide) (by decide)).2

/-- C7: a successfully parsed `Version` built from the compatibility grammar
(the strict regex did not match) has `build = None`, and every parsed
`Version` stores the exact input string in its `version` field. -/
theorem compat_build_none_and_original (s : String) (v : Version)
    (hv : Version.parse s = some v) :
    (strictMatch s = none → v.build = none) ∧ v.version = s := by
  unfold Version.parse at hv
  cases hm : strictMatch s <;> rw [hm] at hv
  · cases hcm : compatMatch s <;> rw [hcm] at hv
    · exact absurd hv (by simp [_set_values])
    · simp only [_set_values] at hv
      obtain rfl := (Option.some.inj hv).symm
      exact ⟨fun _ => rfl, rfl⟩
  · simp only [_set_values] at hv
    obtain rfl := (Option.some.inj hv).symm
    exact ⟨fun h => Option.noConfusion h, rfl⟩

/-- Witness for C7: the compatibility-grammar input `"1.0.1b2"`. -/
theorem compat_build_none_and_original_witness :
    (strictMatch "1.0.1b2" = none →
      (⟨1, 0, 1, some "b-2", none, "1.0.1b2"⟩ : Version).build = none) ∧
    (⟨1, 0, 1, some "b-2", none, "1.0.1b2"⟩ : Version).version = "1.0.1b2" :=
  compat_build_none_and_original "1.0.1b2" ⟨1, 0, 1, some "b-2", none, "1.0.1b2"⟩ (by decide)

end Semver

namespace Semver

/-! ### Lemmas about normalization and the parsed prerelease shape -/

theorem digitChar_isDigit {n : Nat} (h : n < 10) : (Nat.digitChar n).isDigit = true := by
  interval_cases n <;> decide

theorem toDigitsCore_digits : ∀ (f n : Nat) (ds : List Char),
    ds.all Char.isDigit = true → (Nat.toDigitsCore 10 f n ds).all Char.isDigit = true
  | 0, _, _, h => h
  | f + 1, n, ds, h => by
    unfold Nat.toDigitsCore
    have hd : (Nat.digitChar (n % 10)).isDigit = true :=
      digitChar_isDigit (Nat.mod_lt _ (by omega))
    by_cases h10 : n / 10 = 0
    · simp [h10, hd, h]
    · simp only [if_neg h10]
      exact toDigitsCore_digits f (n / 10) _ (by simp [hd, h])

theorem natToChars_digits (n : Nat) : (natToChars n).all Char.isDigit = true :=
  toDigitsCore_digits (n + 1) n [] rfl

theorem ne_dot_of_isDigit {c : Char} (h : c.isDigit = true) : c ≠ '.' := by
  intro he; subst he; exact absurd h (by decide)

theorem ne_dot_of_isAlpha {c : Char} (h : c.isAlpha = true) : c ≠ '.' := by
  intro he; subst he; exact absurd h (by decide)

theorem splitOnChar_eq_self {sep : Char} :
    ∀ l : List Char, (∀ c ∈ l, c ≠ sep) → splitOnChar sep l = [l]
  | [], _ => rfl
  | c :: cs, h => by
    unfold splitOnChar
    rw [if_neg (h c (by simp)), splitOnChar_eq_self cs (fun d hd => h d (by simp [hd]))]

theorem startsRC_shape {p : List Char} (h : startsRC p = true) :
    ∃ rest, p = 'r' :: 'c' :: rest := by
  match p with
  | [] => exact Bool.noConfusion h
  | [a] => exact Bool.noConfusion h
  | a :: b :: rest =>
    rw [show startsRC (a :: b :: rest) = (a == 'r' && b == 'c') from rfl,
      Bool.and_eq_true, beq_iff_eq, beq_iff_eq] at h
    exact ⟨rest, by rw [h.1, h.2]⟩

theorem beq_false_of_isDigit {d e : Char} (hd : d.isDigit = true) (he : e.isDigit = false) :
    (d == e) = false := by
  cases h : d == e
  · rfl
  · have heq := eq_of_beq h
    subst heq
    rw [hd] at he
    exact Bool.noConfusion he

theorem normMatchL_rc (ds : List Char) (h : ds.all Char.isDigit = true) :
    normMatchL ('r' :: 'c' :: ds) = some (['r', 'c'], ds) := by
  unfold normMatchL
  rw [show startsRC ('r' :: 'c' :: ds) = true from rfl]
  simp [h]

theorem normMatchL_letter {c : Char} {ds : List Char} (hc : c.isAlpha = true)
    (h : ds.all Char.isDigit = true) : normMatchL (c :: ds) = some ([c], ds) := by
  unfold normMatchL
  cases ds with
  | nil => simp [startsRC, hc]
  | cons d rest =>
    have hd : d.isDigit = true := by
      rw [List.all_cons, Bool.and_eq_true] at h; exact h.1
    rw [show startsRC (c :: d :: rest) = (c == 'r' && d == 'c') from rfl,
      beq_false_of_isDigit hd (by decide)]
    simp [hc, h]

theorem normalize_rc_digits {ds : List Char} (hne : ds ≠ []) (h : ds.all Char.isDigit = true) :
    _normalize_prerelease (String.mk ('r' :: 'c' :: ds)) =
      String.mk ('r' :: 'c' :: '-' :: natToChars (strToNatL ds)) := by
  unfold _normalize_prerelease
  rw [show (String.mk ('r' :: 'c' :: ds)).data = 'r' :: 'c' :: ds from rfl, normMatchL_rc ds h]
  simp [List.isEmpty_iff, hne]

theorem normalize_letter_digits {c : Char} {ds : List Char} (hc : c.isAlpha = true)
    (hne : ds ≠ []) (h : ds.all Char.isDigit = true) :
    _normalize_prerelease (String.mk (c :: ds)) =
      String.mk (c :: '-' :: natToChars (strToNatL ds)) := by
  unfold _normalize_prerelease
  rw [show (String.mk (c :: ds)).data = c :: ds from rfl, normMatchL_letter hc h]
  simp [List.isEmpty_iff, hne]

theorem normalize_letter_empty {c : Char} (hc : c.isAlpha = true) :
    _normalize_prerelease (String.mk [c]) = String.mk [c] := by
  unfold _normalize_prerelease
  rw [show (String.mk [c]).data = [c] from rfl, @normMatchL_letter c [] hc rfl]
  simp

theorem normalize_wf {t : List Char} (h : tagOk t = true) :
    (_normalize_prerelease (String.mk t)).data ≠ [] ∧
      ∀ c ∈ (_normalize_prerelease (String.mk t)).data, c ≠ '.' := by
  unfold tagOk at h
  rw [Bool.or_eq_true] at h
  rcases h with h | h
  · rw [Bool.and_eq_true] at h
    obtain ⟨rest, rfl⟩ := startsRC_shape h.1
    have hds : rest.all Char.isDigit = true := by simpa using h.2
    by_cases hne : rest = []
    · subst hne
      rw [show _normalize_prerelease (String.mk ['r', 'c']) = String.mk ['r', 'c'] from by decide]
      exact ⟨by decide, by decide⟩
    · rw [normalize_rc_digits hne hds]
      refine ⟨by simp, ?_⟩
      intro c hc
      rw [show (String.mk ('r' :: 'c' :: '-' :: natToChars (strToNatL rest))).data =
        'r' :: 'c' :: '-' :: natToChars (strToNatL rest) from rfl] at hc
      simp only [List.mem_cons] at hc
      rcases hc with rfl | rfl | rfl | hc
      · decide
      · decide
      · decide
      · exact ne_dot_of_isDigit (List.all_eq_true.mp (natToChars_digits _) c hc)
  · cases t with
    | nil => exact Bool.noConfusion h
    | cons c cs =>
      have h' : (c.isAlpha && cs.all Char.isDigit) = true := h
      rw [Bool.and_eq_true] at h'
      by_cases hne : cs = []
      · subst hne
        rw [normalize_letter_empty h'.1]
        exact ⟨by simp, by intro d hd; simp at hd; subst hd; exact ne_dot_of_isAlpha h'.1⟩
      · rw [normalize_letter_digits h'.1 hne h'.2]
        refine ⟨by simp, ?_⟩
        intro d hd
        rw [show (String.mk (c :: '-' :: natToChars (strToNatL cs))).data =
          c :: '-' :: natToChars (strToNatL cs) from rfl] at hd
        simp only [List.mem_cons] at hd
        rcases hd with rfl | rfl | hd
        · exact ne_dot_of_isAlpha h'.1
        · decide
        · exact ne_dot_of_isDigit (List.all_eq_true.mp (natToChars_digits _) d hd)

theorem preIdentOk_ne_nil {id : List Char} (h : preIdentOk id = true) : id ≠ [] := by
  intro hid; subst hid; exact absurd h (by decide)

theorem compatMatch_shape {s : String} {cm : CompatGroups} (h : compatMatch s = some cm) :
    cm.prerelease = none ∨
      ∃ t : List Char, t ≠ [] ∧ tagOk t = true ∧ cm.prerelease = some (String.mk t) := by
  unfold compatMatch at h
  rcases hsp : splitOnChar '.' s.data with _ | ⟨ma, _ | ⟨mi, _ | ⟨last, _ | ⟨x, xs⟩⟩⟩⟩ <;>
      rw [hsp] at h
  · exact absurd h (by simp)
  · exact absurd h (by simp)
  · exact absurd h (by simp)
  · dsimp only at h
    split_ifs at h with hg hte
    · obtain rfl := Option.some.inj h
      exact Or.inl rfl
    · obtain rfl := Option.some.inj h
      simp only [Bool.and_eq_true, Bool.or_eq_true] at hg
      right
      refine ⟨last.dropWhile Char.isDigit, fun hnil => hte (by simp [hnil]), ?_, rfl⟩
      rcases hg.2 with hh | hh
      · exact absurd hh hte
      · exact hh
  · exact absurd h (by simp)

theorem strictCore_shape {l : List Char} {b : Option String} {m : StrictGroups}
    (h : strictCore l b = some m) :
    m.prerelease = none ∨
      ∃ p : List Char, (splitOnChar '.' p).all preIdentOk = true ∧
        m.prerelease = some (String.mk p) := by
  unfold strictCore at h
  rcases hsp : splitOnChar '-' l with _ | ⟨core, rest⟩ <;> rw [hsp] at h
  · exact absurd h (by simp)
  · dsimp only at h
    rcases hc : splitOnChar '.' core with _ | ⟨ma, _ | ⟨mi, _ | ⟨pa, _ | ⟨x, xs⟩⟩⟩⟩ <;>
        rw [hc] at h
    · exact absurd h (by simp)
    · exact absurd h (by simp)
    · exact absurd h (by simp)
    · by_cases hres : rest.isEmpty = true
      · rw [if_pos hres] at h
        dsimp only at h
        split_ifs at h with hg
        obtain rfl := Option.some.inj h
        exact Or.inl rfl
      · rw [if_neg hres] at h
        dsimp only at h
        split_ifs at h with hg
        obtain rfl := Option.some.inj h
        simp only [Bool.and_eq_true] at hg
        exact Or.inr ⟨joinWith '-' rest, hg.2, rfl⟩
    · exact absurd h (by simp)

theorem strictMatch_shape {s : String} {m : StrictGroups} (h : strictMatch s = some m) :
    m.prerelease = none ∨
      ∃ p : List Char, (splitOnChar '.' p).all preIdentOk = true ∧
        m.prerelease = some (String.mk p) := by
  unfold strictMatch at h
  rcases hsp : splitOnChar '+' s.data with _ | ⟨cp, _ | ⟨bd, _ | ⟨x, xs⟩⟩⟩ <;> rw [hsp] at h
  · exact absurd h (by simp)
  · exact strictCore_shape h
  · dsimp only at h
    split_ifs at h with hb
    exact strictCore_shape h
  · exact absurd h (by simp)

theorem parse_prerelease_shape {s : String} {v : Version} (hv : Version.parse s = some v) :
    v.prerelease = none ∨
      ∃ p : String, v.prerelease = some p ∧ p.data ≠ [] ∧
        ∀ id ∈ splitOnChar '.' p.data, id ≠ [] := by
  unfold Version.parse at hv
  cases hm : strictMatch s <;> rw [hm] at hv
  · cases hcm : compatMatch s <;> rw [hcm] at hv
    · exact absurd hv (by simp [_set_values])
    · simp only [_set_values] at hv
      obtain rfl := (Option.some.inj hv).symm
      rcases compatMatch_shape hcm with hnone | ⟨t, htne, htag, hpre⟩
      · left
        simp [hnone, truthy]
      · right
        refine ⟨_normalize_prerelease (String.mk t), ?_, (normalize_wf htag).1, ?_⟩
        · show (if truthy _ = true then _ else _) = _
          rw [if_pos (by
            rw [hpre]
            show (!(String.mk t).data.isEmpty) = true
            rw [show (String.mk t).data = t from rfl]
            simp [List.isEmpty_eq_false.mpr htne]), hpre]
          rfl
        · intro id hid
          rw [splitOnChar_eq_self _ (normalize_wf htag).2] at hid
          simp only [List.mem_singleton] at hid
          subst hid
          exact (normalize_wf htag).1
  · simp only [_set_values] at hv
    obtain rfl := (Option.some.inj hv).symm
    rcases strictMatch_shape hm with hnone | ⟨p, hall, hpre⟩
    · exact Or.inl hnone
    · right
      refine ⟨String.mk p, hpre, ?_, ?_⟩
      · show p ≠ []
        exact fun hp => absurd (hp ▸ hall) (by decide)
      · show ∀ id ∈ splitOnChar '.' p, id ≠ []
        exact fun id hid => preIdentOk_ne_nil (List.all_eq_true.mp hall id hid)

/-- C10: a parsed `Version`'s prerelease is `None` or a non-empty string with
no empty dot-separated identifier, so the truthiness tests of
`compare_prerelease` coincide with presence, and `int()` is only ever applied
to identifiers that `isdigit` certifies non-empty and all-digit. -/
theorem parsed_prerelease_wf (s : String) (v : Version) (hv : Version.parse s = some v) :
    truthy v.prerelease = v.prerelease.isSome ∧
    (∀ p, v.prerelease = some p → p.data ≠ [] ∧ ∀ id ∈ splitOnChar '.' p.data, id ≠ []) ∧
    (∀ id : String, pyIsDigit id = true → id.data ≠ [] ∧ id.data.all Char.isDigit = true) := by
  have hs := parse_prerelease_shape hv
  refine ⟨?_, ?_, ?_⟩
  · rcases hs with h | ⟨p, hp, hne, _⟩
    · rw [h]; rfl
    · rw [hp]
      show (!p.data.isEmpty) = true
      simp [List.isEmpty_eq_false.mpr hne]
  · intro p hp
    rcases hs with h | ⟨q, hq, hne, hids⟩
    · rw [h] at hp; exact Option.noConfusion hp
    · rw [hq] at hp
      obtain rfl := Option.some.inj hp
      exact ⟨hne, hids⟩
  · intro id hid
    unfold pyIsDigit at hid
    rw [Bool.and_eq_true] at hid
    exact ⟨List.isEmpty_eq_false.mp (by simpa using hid.1), hid.2⟩

/-- Witness for C10: the parsed version of `"1.0.0-alpha.1"`. -/
theorem parsed_prerelease_wf_witness :
    truthy (⟨1, 0, 0, some "alpha.1", none, "1.0.0-alpha.1"⟩ : Version).prerelease =
      (⟨1, 0, 0, some "alpha.1", none, "1.0.0-alpha.1"⟩ : Version).prerelease.isSome :=
  (parsed_prerelease_wf "1.0.0-alpha.1" ⟨1, 0, 0, some "alpha.1", none, "1.0.0-alpha.1"⟩
    (by decide)).1

/-- C9: every string matched by the compatibility grammar's prerelease group
`(?:rc|[a-zA-Z])\d*` is matched by `_normalize_prerelease`'s inner regex
`^(rc|[a-zA-Z])(\d*)$`, so the function's final fallback return is never
reached during `Version` construction. -/
theorem normalize_fallback_unreachable :
    (∀ t : List Char, tagOk t = true → (normMatchL t).isSome = true) ∧
    (∀ (s : String) (cm : CompatGroups) (p : String),
      compatMatch s = some cm → cm.prerelease = some p →
      (normMatchL p.data).isSome = true) := by
  have base : ∀ t : List Char, tagOk t = true → (normMatchL t).isSome = true := by
    intro t h
    unfold tagOk at h
    rw [Bool.or_eq_true] at h
    rcases h with h | h
    · rw [Bool.and_eq_true] at h
      obtain ⟨rest, rfl⟩ := startsRC_shape h.1
      rw [normMatchL_rc rest (by simpa using h.2)]
      rfl
    · cases t with
      | nil => exact Bool.noConfusion h
      | cons c cs =>
        have h' : (c.isAlpha && cs.all Char.isDigit) = true := h
        rw [Bool.and_eq_true] at h'
        rw [normMatchL_letter h'.1 h'.2]
        rfl
  refine ⟨base, fun s cm p hcm hp => ?_⟩
  rcases compatMatch_shape hcm with hnone | ⟨t, _, htag, hpre⟩
  · rw [hnone] at hp; exact Option.noConfusion hp
  · rw [hpre] at hp
    obtain rfl := (Option.some.inj hp).symm
    exact base t htag

/-- C3: a compatibility tag with trailing digits is stored as the letter/`rc`
prefix, a literal hyphen and the digits as an integer with leading zeros
dropped; with no trailing digits it is stored unchanged; and the prereleases
parsed from `"1.0.1b2"` and `"1.0.1-b-2"` compare equal. -/
theorem compat_tag_normalization :
    (∀ ds : List Char, ds ≠ [] → ds.all Char.isDigit = true →
      _normalize_prerelease (String.mk ('r' :: 'c' :: ds)) =
        String.mk ('r' :: 'c' :: '-' :: natToChars (strToNatL ds))) ∧
    (∀ (c : Char) (ds : List Char), c.isAlpha = true → ds ≠ [] → ds.all Char.isDigit = true →
      _normalize_prerelease (String.mk (c :: ds)) =
        String.mk (c :: '-' :: natToChars (strToNatL ds))) ∧
    (∀ c : Char, c.isAlpha = true → _normalize_prerelease (String.mk [c]) = String.mk [c]) ∧
    _normalize_prerelease "rc" = "rc" ∧
    _normalize_prerelease "b1" = "b-1" ∧
    _normalize_prerelease "rc007" = "rc-7" ∧
    (∀ (s : String) (v : Version) (cm : CompatGroups) (t : String),
      strictMatch s = none → compatMatch s = some cm → cm.prerelease = some t →
      Version.parse s = some v → v.prerelease = some (_normalize_prerelease t)) ∧
    (∀ u w : Version, Version.parse "1.0.1b2" = some u → Version.parse "1.0.1-b-2" = some w →
      compare_prerelease u w = 0) := by
  refine ⟨fun ds hne h => normalize_rc_digits hne h,
    fun c ds hc hne h => normalize_letter_digits hc hne h,
    fun c hc => normalize_letter_empty hc,
    by decide, by decide, by decide, ?_, ?_⟩
  · intro s v cm t hm hcm hp hv
    unfold Version.parse at hv
    rw [hm, hcm] at hv
    simp only [_set_values] at hv
    obtain rfl := (Option.some.inj hv).symm
    rcases compatMatch_shape hcm with hnone | ⟨t0, htne, htag, hpre⟩
    · rw [hnone] at hp; exact Option.noConfusion hp
    · rw [hpre] at hp
      obtain rfl := Option.some.inj hp
      show (if truthy cm.prerelease = true then _ else _) = _
      rw [if_pos (by
          rw [hpre]
          show (!(String.mk t0).data.isEmpty) = true
          rw [show (String.mk t0).data = t0 from rfl]
          simp [List.isEmpty_eq_false.mpr htne]), hpre]
      rfl
  · intro u w hu hw
    rw [show Version.parse "1.0.1b2" =
      some ⟨1, 0, 1, some "b-2", none, "1.0.1b2"⟩ from by decide] at hu
    rw [show Version.parse "1.0.1-b-2" =
      some ⟨1, 0, 1, some "b-2", none, "1.0.1-b-2"⟩ from by decide] at hw
    obtain rfl := (Option.some.inj hu).symm
    obtain rfl := (Option.some.inj hw).symm
    decide

end Semver

namespace Semver

/-- C4: `Version.__init__` raises the single `ValueError` (here: `parse`
returns `none`) exactly when the input matches neither the anchored strict
grammar nor the anchored compatibility grammar; in particular `"01.0.0"`,
`"1.0"`, `"1.0.0-"`, `""` and `"abc"` are all rejected by both grammars and
produce no `Version`. -/
theorem parse_error_iff :
    (∀ s, Version.parse s = none ↔ (strictMatch s = none ∧ compatMatch s = none)) ∧
    Version.parse "01.0.0" = none ∧ Version.parse "1.0" = none ∧
    Version.parse "1.0.0-" = none ∧ Version.parse "" = none ∧
    Version.parse "abc" = none := by
  refine ⟨fun s => ?_, by decide, by decide, by decide, by decide, by decide⟩
  unfold Version.parse
  cases hm : strictMatch s <;> cases hcm : compatMatch s <;>
    simp [_set_values]

end Semver

namespace Semver

/-- C5 counterexample: contrary to the claim, an identifier that contains a
letter but starts with a digit is NOT accepted: `0a` fails the strict
grammar's identifier alternation, and `"1.0.0-0a"` (like `"1.0.0-01a"`)
fails to parse under both grammars. -/
theorem strict_ident_leading_digit_cex :
    preIdentOk ['0', 'a'] = false ∧ preIdentOk ['0', '1', 'a'] = false ∧
    strictMatch "1.0.0-0a" = none ∧ Version.parse "1.0.0-0a" = none ∧
    Version.parse "1.0.0-01a" = none := by decide

/-- C5 amended: under the strict grammar a purely numeric prerelease
identifier is accepted exactly when it has no leading zero (unless it is
`0`), and a non-purely-numeric identifier is accepted exactly when it starts
with a letter or a hyphen and continues with alphanumerics/hyphens; so `0`,
`10`, `a0` and `-` are accepted while `01`, `0a` and `01a` are rejected. -/
theorem strict_pre_ident_amended :
    (∀ l : List Char, l.all Char.isDigit = true →
      (preIdentOk l = true ↔ numeralOk l = true)) ∧
    (∀ (c : Char) (cs : List Char), (c :: cs).all Char.isDigit = false →
      (preIdentOk (c :: cs) = true ↔
        ((c.isAlpha = true ∨ c = '-') ∧ (c :: cs).all isAlnumHyphen = true))) ∧
    Version.parse "1.0.0-0" ≠ none ∧ Version.parse "1.0.0-10" ≠ none ∧
    Version.parse "1.0.0-a0" ≠ none ∧ Version.parse "1.0.0--" ≠ none ∧
    Version.parse "1.0.0-01" = none ∧ Version.parse "1.0.0-0a" = none ∧
    Version.parse "1.0.0-01a" = none := by
  refine ⟨?_, ?_, by decide, by decide, by decide, by decide, by decide, by decide, by decide⟩
  · intro l h
    cases l with
    | nil => decide
    | cons c cs =>
      unfold preIdentOk numeralOk
      dsimp only
      rw [if_pos h, h]
      simp
  · intro c cs h
    unfold preIdentOk
    dsimp only
    rw [if_neg (by simp [h])]
    simp [Bool.and_eq_true, Bool.or_eq_true, decide_eq_true_eq]

end Semver

namespace Semver

theorem specIdentCmp_eq_pairCmp (x y : String) : specIdentCmp x y = pairCmp x y := by
  cases hx : pyIsDigit x <;> cases hy : pyIsDigit y
  · rw [pairCmp_ff hx hy]
    unfold specIdentCmp
    rw [if_neg (by rw [hx]; exact Bool.false_ne_true),
      if_neg (by rw [hy]; exact Bool.false_ne_true)]
    rfl
  · rw [pairCmp_ft hx hy]
    unfold specIdentCmp
    rw [if_neg (by rw [hx]; exact Bool.false_ne_true), if_pos hy]
  · rw [pairCmp_tf hx hy]
    unfold specIdentCmp
    rw [if_pos hx, if_neg (by rw [hy]; exact Bool.false_ne_true)]
  · rw [pairCmp_tt hx hy]
    unfold specIdentCmp
    rw [if_pos hx, if_pos hy]
    rfl

theorem plistCmp_eq_spec : ∀ xs ys : List String, plistCmp xs ys = specPrereleaseCmp xs ys
  | [], [] => plistCmp_nil_nil
  | [], y :: ys => plistCmp_nil_cons y ys
  | x :: xs, [] => plistCmp_cons_nil x xs
  | x :: xs, y :: ys => by
    rw [plistCmp_cons_cons]
    unfold specPrereleaseCmp
    rw [specIdentCmp_eq_pairCmp]
    by_cases h : pairCmp x y = 0
    · rw [if_pos h, if_pos h, plistCmp_eq_spec xs ys]
    · rw [if_neg h, if_neg h]

/-- C2: with equal cores, a release outranks any prerelease, two releases are
equal, and two prereleases are compared exactly by the spec's left-to-right
identifier algorithm (numeric as integers, non-numeric as strings, numeric
below non-numeric, first difference decides, proper prefix is lower). -/
theorem prerelease_precedence (s t : String) (a b : Version)
    (ha : Version.parse s = some a) (hb : Version.parse t = some b)
    (h1 : a.major = b.major) (h2 : a.minor = b.minor) (h3 : a.patch = b.patch) :
    (a.prerelease = none → b.prerelease ≠ none → vgt a b = true ∧ vlt b a = true) ∧
    (a.prerelease = none → b.prerelease = none → veq a b = true) ∧
    (∀ p q, a.prerelease = some p → b.prerelease = some q →
      compare_prerelease a b = specPrereleaseCmp (pySplitDot p) (pySplitDot q)) := by
  have hcore : compare_core a b = 0 := by
    rw [compare_core_eq, h1, h2, h3]
    simp
  refine ⟨?_, ?_, ?_⟩
  · intro han hbs
    rcases parse_prerelease_shape hb with hbn | ⟨q0, hq0, hq0ne, _⟩
    · exact absurd hbn hbs
    have hpre : compare_prerelease a b = 1 := by
      unfold compare_prerelease
      rw [han, hq0]
      simp [truthy, List.isEmpty_eq_false.mpr hq0ne]
    have hvlt : vlt a b = false := by
      simp only [vlt]
      rw [hcore, hpre]
      norm_num
    have hveq : veq a b = false := by
      simp only [veq]
      rw [hcore, hpre]
      norm_num
    have hcore' : compare_core b a = 0 := by
      rw [compare_core_swap, hcore]
      try rfl
    have hpre' : compare_prerelease b a = -1 := by
      rw [compare_prerelease_swap, hpre]
      try rfl
    constructor
    · simp only [vgt]
      rw [hvlt, hveq]
      rfl
    · simp only [vlt]
      rw [hcore', hpre']
      norm_num
  · intro han hbn
    have hpre : compare_prerelease a b = 0 := by
      unfold compare_prerelease
      rw [han, hbn]
      simp [truthy]
    simp only [veq]
    rw [hcore, hpre]
    rfl
  · intro p q hp hq
    rcases parse_prerelease_shape ha with han | ⟨p0, hp0, hp0ne, _⟩
    · rw [han] at hp; exact Option.noConfusion hp
    rcases parse_prerelease_shape hb with hbn | ⟨q0, hq0, hq0ne, _⟩
    · rw [hbn] at hq; exact Option.noConfusion hq
    rw [hp0] at hp
    rw [hq0] at hq
    obtain rfl := Option.some.inj hp
    obtain rfl := Option.some.inj hq
    have hta : truthy a.prerelease = true := by
      rw [hp0]
      simp [truthy, List.isEmpty_eq_false.mpr hp0ne]
    have htb : truthy b.prerelease = true := by
      rw [hq0]
      simp [truthy, List.isEmpty_eq_false.mpr hq0ne]
    rw [compare_prerelease_both hta htb, hp0, hq0]
    simp only [Option.getD_some]
    exact plistCmp_eq_spec _ _

/-- Witness for C2 at `1.0.0-alpha` versus `1.0.0-alpha.1`. -/
theorem prerelease_precedence_witness :
    compare_prerelease ⟨1, 0, 0, some "alpha", none, "1.0.0-alpha"⟩
        ⟨1, 0, 0, some "alpha.1", none, "1.0.0-alpha.1"⟩ =
      specPrereleaseCmp (pySplitDot "alpha") (pySplitDot "alpha.1") :=
  (prerelease_precedence "1.0.0-alpha" "1.0.0-alpha.1"
    ⟨1, 0, 0, some "alpha", none, "1.0.0-alpha"⟩
    ⟨1, 0, 0, some "alpha.1", none, "1.0.0-alpha.1"⟩
    (by decide) (by decide) rfl rfl rfl).2.2 "alpha" "alpha.1" rfl rfl

end Semver

namespace Semver

theorem cmpPairs2_cons (x y : String) (rest : List (String × String)) :
    Solution2.cmpPairs2 ((x, y) :: rest) =
      if pairCmp x y = 0 then Solution2.cmpPairs2 rest else pairCmp x y := by
  cases hx : pyIsDigit x <;> cases hy : pyIsDigit y
  · rw [pairCmp_ff hx hy]
    rcases lt_trichotomy x.data y.data with h | h | h
    · rw [show strCmp x y = -1 from strCmp_eq_neg_one.mpr h]
      simp [Solution2.cmpPairs2, hx, hy, h, lt_asymm h]
    · rw [show strCmp x y = 0 from strCmp_eq_zero.mpr (String.toList_inj.mp h)]
      simp [Solution2.cmpPairs2, hx, hy, h, lt_irrefl]
    · rw [show strCmp x y = 1 from by unfold strCmp; rw [if_neg (lt_asymm h), if_pos h]]
      simp [Solution2.cmpPairs2, hx, hy, h, lt_asymm h]
  · rw [pairCmp_ft hx hy]
    simp [Solution2.cmpPairs2, hx, hy]
  · rw [pairCmp_tf hx hy]
    simp [Solution2.cmpPairs2, hx, hy]
  · rw [pairCmp_tt hx hy]
    rcases Nat.lt_trichotomy (strToNat x) (strToNat y) with h | h | h
    · rw [show natCmp (strToNat x) (strToNat y) = -1 from by unfold natCmp; rw [if_pos h]]
      simp [Solution2.cmpPairs2, hx, hy, h, Nat.lt_asymm h]
    · rw [show natCmp (strToNat x) (strToNat y) = 0 from natCmp_eq_zero.mpr h]
      simp [Solution2.cmpPairs2, hx, hy, h, lt_irrefl]
    · rw [show natCmp (strToNat x) (strToNat y) = 1 from by
        unfold natCmp; rw [if_neg (Nat.lt_asymm h), if_pos h]]
      simp [Solution2.cmpPairs2, hx, hy, h, Nat.lt_asymm h]

theorem cmpPairs2_eq : ∀ l, Solution2.cmpPairs2 l = cmpPairs l
  | [] => rfl
  | (x, y) :: rest => by
    rw [cmpPairs2_cons, cmpPairs_cons, cmpPairs2_eq rest]

theorem compare_prerelease2_eq (a b : Version) :
    Solution2.compare_prerelease2 a b = compare_prerelease a b := by
  simp only [Solution2.compare_prerelease2, compare_prerelease, plistCmp, cmpPairs2_eq]

theorem vlt2_eq (a b : Version) : Solution2.vlt2 a b = vlt a b := by
  have hc : Solution2.compare_core2 a b = compare_core a b := rfl
  have hp := compare_prerelease2_eq a b
  simp only [Solution2.vlt2, vlt, hc, hp]
  rcases compare_core_range a b with hco | hco | hco <;> rw [hco] <;> norm_num
  rcases compare_prerelease_range a b with h | h | h <;> rw [h] <;> norm_num

theorem veq2_eq (a b : Version) : Solution2.veq2 a b = veq a b := by
  have hp := compare_prerelease2_eq a b
  simp only [Solution2.veq2, veq, hp]
  rfl

/-- C8: the two source drafts are behaviorally equivalent: `__init__` (over
the character-identical regexes and `_set_values`) accepts, rejects and
constructs identically, and `compare_core`, `compare_prerelease`, `__lt__`
and `__eq__` agree on every pair of `Version` values. -/
theorem drafts_equivalent :
    (∀ s, Solution2.parse2 s = Version.parse s) ∧
    (∀ a b : Version,
      Solution2.compare_core2 a b = compare_core a b ∧
      Solution2.compare_prerelease2 a b = compare_prerelease a b ∧
      Solution2.vlt2 a b = vlt a b ∧
      Solution2.veq2 a b = veq a b) :=
  ⟨fun _ => rfl, fun a b => ⟨rfl, compare_prerelease2_eq a b, vlt2_eq a b, veq2_eq a b⟩⟩

end Semver
